import Mathlib

/-!
# Verification of the Sophia `Net` class (net.py)

A shallow embedding of `net.py`: the symbolic graphs that the class builds are
modelled by a small expression language `Expr`; external collaborators (the
layer implementations, the optimizer plugins, theano's automatic
differentiation and `clip_norm`) are opaque operations interpreted by an
`Engine`.  Compiled theano functions are modelled by their (inputs, outputs,
updates) triple, and calling one applies its update list to the shared-variable
store: every right-hand side is evaluated in the pre-state, then written.
Tensors are numpy-style shape-plus-flat-data values over ℚ.
-/

namespace Sophia

/-- A numeric tensor: shape plus row-major flat data, mirroring numpy arrays. -/
structure Tensor where
  shape : List Nat
  data : List ℚ
deriving DecidableEq, Repr, Inhabited

/-- A tensor is well formed when its data length matches its shape. -/
def Tensor.wf (t : Tensor) : Prop := t.data.length = t.shape.prod

instance (t : Tensor) : Decidable t.wf := by unfold Tensor.wf; infer_instance

/-- `tt.zeros_like`: same shape, all entries zero. -/
def zerosLikeT (t : Tensor) : Tensor := ⟨t.shape, t.data.map (fun _ => 0)⟩

/-- `tt.tile(v, (b, 1))` on a vector-like tensor: `b` identical copies stacked
along a new leading axis. -/
def tileT (b : Nat) (t : Tensor) : Tensor :=
  ⟨b :: t.shape, (List.replicate b t.data).flatten⟩

/-- `tt.mean(v, axis = 0)`: average across the leading (batch) axis. -/
def meanA0 (t : Tensor) : Tensor :=
  match t.shape with
  | [] => t
  | b :: rest =>
    let m := rest.prod
    ⟨rest, (List.range m).map (fun j =>
      (((List.range b).map (fun i => t.data.getD (i * m + j) 0)).sum) / (b : ℚ))⟩

/-- `x[k :]`: drop the first `k` slices along the leading (time) axis. -/
def sliceT (k : Nat) (t : Tensor) : Tensor :=
  match t.shape with
  | [] => t
  | n :: rest => ⟨(n - k) :: rest, t.data.drop (k * rest.prod)⟩

/-- Modelled from the spec: `MSE_loss` lives in the external `utils` module;
the spec describes the loss as the mean-squared error against the target,
i.e. the mean of elementwise squared differences. -/
def mseT (a b : Tensor) : Tensor :=
  ⟨[], [((a.data.zipWith (fun x y => (x - y) ^ 2) b.data).sum) / (a.data.length : ℚ)]⟩

/-- A scalar tensor. -/
def scalarT (q : ℚ) : Tensor := ⟨[], [q]⟩

/-- A scalar tensor holding a natural number (an int32 port value). -/
def natT (n : Nat) : Tensor := scalarT (n : ℚ)

/-- Read a natural number back from a scalar tensor. -/
def toNatT (t : Tensor) : Nat := (t.data.headD 0).num.toNat

/-- Row `i` of a tensor along its leading axis. -/
def rowAt (i : Nat) (t : Tensor) : List ℚ :=
  (t.data.drop (i * t.shape.tail.prod)).take t.shape.tail.prod

theorem toNatT_natT (n : Nat) : toNatT (natT n) = n := by
  simp [toNatT, natT, scalarT]

theorem zerosLikeT_all_zero (t : Tensor) : ∀ q ∈ (zerosLikeT t).data, q = 0 := by
  intro q hq
  simp [zerosLikeT] at hq
  exact hq.2

theorem join_replicate_row (xs : List ℚ) :
    ∀ (i b : Nat), i < b →
      (((List.replicate b xs).flatten.drop (i * xs.length)).take xs.length) = xs := by
  intro i
  induction i with
  | zero =>
    intro b hb
    match b, hb with
    | Nat.succ m, _ =>
      simp [List.replicate_succ, List.take_left]
  | succ i ih =>
    intro b hb
    match b, hb with
    | Nat.succ m, hb =>
      have hlt : i < m := Nat.lt_of_succ_lt_succ hb
      have hstep : (i + 1) * xs.length = xs.length + i * xs.length := by ring
      rw [List.replicate_succ, List.flatten_cons, hstep, List.drop_append]
      exact ih m hlt

theorem rowAt_tileT (b : Nat) (v : Tensor) (hv : v.wf) (i : Nat) (hi : i < b) :
    rowAt i (tileT b v) = v.data := by
  have hlen : v.shape.prod = v.data.length := hv.symm
  simp only [rowAt, tileT, List.tail_cons, hlen]
  exact join_replicate_row v.data i b hi

/-- Python `k[-4:]`. -/
def sfx4 (k : String) : String := ⟨(k.data.reverse.take 4).reverse⟩

/-- Python `k[:-4]`. -/
def pre4 (k : String) : String := ⟨(k.data.reverse.drop 4).reverse⟩

/-- `to_init` from `compile_f_initialize_states`: `k[:-4] + 'init'`,
mapping a previous-state variable name to its init parameter name. -/
def toInit (k : String) : String := pre4 k ++ "init"

theorem str_ext {a b : String} (h : a.data = b.data) : a = b := by
  cases a; cases b; exact congrArg String.mk h

theorem str_data_append (a b : String) : (a ++ b).data = a.data ++ b.data := rfl

theorem str_append_assoc (a b c : String) : a ++ b ++ c = a ++ (b ++ c) := by
  apply str_ext
  simp [str_data_append]

theorem sfx4_append (n s : String) (hs : s.data.length = 4) : sfx4 (n ++ s) = s := by
  apply str_ext
  simp only [sfx4, str_data_append, List.reverse_append]
  rw [List.take_left' (by simpa using hs), List.reverse_reverse]

theorem pre4_append (n s : String) (hs : s.data.length = 4) : pre4 (n ++ s) = n := by
  apply str_ext
  simp only [pre4, str_data_append, List.reverse_append]
  rw [List.drop_left' (by simpa using hs), List.reverse_reverse]

theorem sfx4_init (n : String) : sfx4 (n ++ "_init") = "init" := by
  have h : n ++ "_init" = (n ++ "_") ++ "init" := by
    rw [str_append_assoc]; rfl
  rw [h, sfx4_append _ _ (by rfl)]

theorem sfx4_prev (n : String) : sfx4 (n ++ "_prev") = "prev" := by
  have h : n ++ "_prev" = (n ++ "_") ++ "prev" := by
    rw [str_append_assoc]; rfl
  rw [h, sfx4_append _ _ (by rfl)]

theorem toInit_prev (n : String) : toInit (n ++ "_prev") = n ++ "_init" := by
  have h : n ++ "_prev" = (n ++ "_") ++ "prev" := by
    rw [str_append_assoc]; rfl
  rw [toInit, h, pre4_append _ _ (by rfl), str_append_assoc]
  rfl

theorem str_append_right_cancel {a b c : String} (h : a ++ c = b ++ c) : a = b := by
  apply str_ext
  have := congrArg String.data h
  simp only [str_data_append] at this
  exact List.append_cancel_right this

/-- Symbolic theano expressions, restricted to the operations `net.py` builds.
External graphs (the layer `setup_graph` calls, the id-embedding one-hot /
tile / concatenate wiring, optimizer forces and update rules) appear as opaque
nodes `ext f args` whose argument list names every symbolic object passed to
them; `grad l w` is theano's symbolic gradient of `l` with respect to the
shared variable `w`. -/
inductive Expr where
  | svar : String → Expr
  | port : String → Expr
  | zerosLike : Expr → Expr
  | tileB : Nat → Expr → Expr
  | meanAxis0 : Expr → Expr
  | sliceFrom : Expr → Expr → Expr
  | mse : Expr → Expr → Expr
  | clipNorm : ℚ → Expr → Expr
  | grad : Expr → String → Expr
  | dim0m1 : Expr → Expr
  | enil : Expr
  | econs : Expr → Expr → Expr
  | ext : Nat → Expr → Expr
deriving DecidableEq, Repr

/-- Build an argument list for an opaque node. -/
def elist : List Expr → Expr := List.foldr Expr.econs Expr.enil

/-- The shared variables an expression reads (transitively, through opaque
nodes and through the gradient of a sub-expression). -/
def reads : Expr → List String
  | .svar n => [n]
  | .port _ => []
  | .zerosLike e => reads e
  | .tileB _ e => reads e
  | .meanAxis0 e => reads e
  | .sliceFrom t e => reads t ++ reads e
  | .mse a b => reads a ++ reads b
  | .clipNorm _ e => reads e
  | .grad l _ => reads l
  | .dim0m1 e => reads e
  | .enil => []
  | .econs a r => reads a ++ reads r
  | .ext _ args => reads args

/-- The input ports an expression consumes (transitively). -/
def portsOf : Expr → List String
  | .svar _ => []
  | .port n => [n]
  | .zerosLike e => portsOf e
  | .tileB _ e => portsOf e
  | .meanAxis0 e => portsOf e
  | .sliceFrom t e => portsOf t ++ portsOf e
  | .mse a b => portsOf a ++ portsOf b
  | .clipNorm _ e => portsOf e
  | .grad l _ => portsOf l
  | .dim0m1 e => portsOf e
  | .enil => []
  | .econs a r => portsOf a ++ portsOf r
  | .ext _ args => portsOf args

/-- Interpretation of the opaque operations: the external layer/optimizer
graphs (`extVal`), theano's automatic differentiation (`gradVal`, a black box
that may inspect the loss expression and the current shared/input values), and
the external `clip_norm` utility (`clipVal`). -/
structure Engine where
  extVal : Nat → List Tensor → Tensor
  gradVal : Expr → String → (String → Tensor) → (String → Tensor) → Tensor
  clipVal : ℚ → Tensor → Tensor

/-- A differentiation engine is honest when the value of a gradient depends on
the shared store only through the variables the differentiated expression
reads (theano's gradient graph is built from the loss graph's inputs). -/
def Engine.GradRespects (E : Engine) : Prop :=
  ∀ (l : Expr) (w : String) (σ σ' ι : String → Tensor),
    (∀ x ∈ reads l, σ x = σ' x) → E.gradVal l w σ ι = E.gradVal l w σ' ι

mutual

/-- Evaluate an expression against a shared-variable store `σ` and an
input-port assignment `ι`. -/
def eval (E : Engine) (σ ι : String → Tensor) : Expr → Tensor
  | .svar n => σ n
  | .port n => ι n
  | .zerosLike e => zerosLikeT (eval E σ ι e)
  | .tileB b e => tileT b (eval E σ ι e)
  | .meanAxis0 e => meanA0 (eval E σ ι e)
  | .sliceFrom t e => sliceT (toNatT (eval E σ ι t)) (eval E σ ι e)
  | .mse a b => mseT (eval E σ ι a) (eval E σ ι b)
  | .clipNorm c e => E.clipVal c (eval E σ ι e)
  | .grad l w => E.gradVal l w σ ι
  | .dim0m1 e => natT ((eval E σ ι e).shape.headD 1 - 1)
  | .enil => scalarT 0
  | .econs _ _ => scalarT 0
  | .ext f args => E.extVal f (evalArgs E σ ι args)

/-- Evaluate an `econs`-encoded argument list. -/
def evalArgs (E : Engine) (σ ι : String → Tensor) : Expr → List Tensor
  | .econs a r => eval E σ ι a :: evalArgs E σ ι r
  | _ => []

end

theorem eval_and_args_congr (E : Engine) (hE : E.GradRespects) (σ σ' ι : String → Tensor) :
    ∀ e : Expr,
      ((∀ x ∈ reads e, σ x = σ' x) → eval E σ ι e = eval E σ' ι e) ∧
      ((∀ x ∈ reads e, σ x = σ' x) → evalArgs E σ ι e = evalArgs E σ' ι e) := by
  intro e
  induction e with
  | svar n =>
    refine ⟨fun h => ?_, fun _ => rfl⟩
    simpa [eval] using h n (by simp [reads])
  | port n => exact ⟨fun _ => rfl, fun _ => rfl⟩
  | zerosLike e ih =>
    exact ⟨fun h => by simp only [eval]; rw [ih.1 h], fun _ => rfl⟩
  | tileB b e ih =>
    exact ⟨fun h => by simp only [eval]; rw [ih.1 h], fun _ => rfl⟩
  | meanAxis0 e ih =>
    exact ⟨fun h => by simp only [eval]; rw [ih.1 h], fun _ => rfl⟩
  | sliceFrom t e iht ihe =>
    refine ⟨fun h => ?_, fun _ => rfl⟩
    have ht := iht.1 (fun x hx => h x (by simp [reads]; exact Or.inl hx))
    have he := ihe.1 (fun x hx => h x (by simp [reads]; exact Or.inr hx))
    simp only [eval]; rw [ht, he]
  | mse a b iha ihb =>
    refine ⟨fun h => ?_, fun _ => rfl⟩
    have ha := iha.1 (fun x hx => h x (by simp [reads]; exact Or.inl hx))
    have hb := ihb.1 (fun x hx => h x (by simp [reads]; exact Or.inr hx))
    simp only [eval]; rw [ha, hb]
  | clipNorm c e ih =>
    exact ⟨fun h => by simp only [eval]; rw [ih.1 h], fun _ => rfl⟩
  | grad l w ih =>
    refine ⟨fun h => ?_, fun _ => rfl⟩
    simp only [eval]
    exact hE l w σ σ' ι (by simpa [reads] using h)
  | dim0m1 e ih =>
    exact ⟨fun h => by simp only [eval]; rw [ih.1 h], fun _ => rfl⟩
  | enil => exact ⟨fun _ => rfl, fun _ => rfl⟩
  | econs a r iha ihr =>
    refine ⟨fun _ => rfl, fun h => ?_⟩
    have ha := iha.1 (fun x hx => h x (by simp [reads]; exact Or.inl hx))
    have hr := ihr.2 (fun x hx => h x (by simp [reads]; exact Or.inr hx))
    simp only [evalArgs]; rw [ha, hr]
  | ext f args ih =>
    refine ⟨fun h => ?_, fun _ => rfl⟩
    simp only [eval]
    rw [ih.2 (by simpa [reads] using h)]

theorem eval_congr (E : Engine) (hE : E.GradRespects) (σ σ' ι : String → Tensor)
    (e : Expr) (h : ∀ x ∈ reads e, σ x = σ' x) :
    eval E σ ι e = eval E σ' ι e :=
  (eval_and_args_congr E hE σ σ' ι e).1 h

/-- Apply a theano update list to the store: every right-hand side is
evaluated against the pre-state, then all targets are written. -/
def applyUpdates (E : Engine) (upds : List (String × Expr)) (σ ι : String → Tensor)
    (n : String) : Tensor :=
  match upds.find? (fun u => u.1 == n) with
  | some u => eval E σ ι u.2
  | none => σ n

theorem applyUpdates_not_target (E : Engine) (upds : List (String × Expr))
    (σ ι : String → Tensor) (n : String) (h : ∀ u ∈ upds, u.1 ≠ n) :
    applyUpdates E upds σ ι n = σ n := by
  unfold applyUpdates
  rw [List.find?_eq_none.2 (by intro u hu; simpa using h u hu)]

theorem applyUpdates_mapped (E : Engine) (σ ι : String → Tensor)
    (L : List String) (nm : String → String) (f : String → Expr)
    (hinj : ∀ a b, nm a = nm b → a = b) (k : String) (hk : k ∈ L) :
    applyUpdates E (L.map (fun j => (nm j, f j))) σ ι (nm k) = eval E σ ι (f k) := by
  induction L with
  | nil => cases hk
  | cons j rest ih =>
    by_cases hje : nm j = nm k
    · have : j = k := hinj j k hje
      subst this
      unfold applyUpdates
      rw [List.map_cons, List.find?_cons_of_pos _ (by simp)]
    · have hkr : k ∈ rest := by
        cases List.mem_cons.1 hk with
        | inl h => exact absurd (congrArg nm h.symm) hje
        | inr h => exact h
      have ihr := ih hkr
      unfold applyUpdates at ihr ⊢
      rw [List.map_cons, List.find?_cons_of_neg _ (by simp [hje])]
      exact ihr

theorem applyUpdates_append_left (E : Engine) (σ ι : String → Tensor)
    (l r : List (String × Expr)) (n : String)
    (h : (l.find? (fun u => u.1 == n)).isSome) :
    applyUpdates E (l ++ r) σ ι n = applyUpdates E l σ ι n := by
  unfold applyUpdates
  match hf : l.find? (fun u => u.1 == n) with
  | some u => rw [List.find?_append, hf]; rfl
  | none => rw [hf] at h; cases h

/-- The typed option fields the graph-building code of `net.py` consults. -/
structure Config where
  learn_id_embedding : Bool
  learn_clock_params : Bool
  learn_init_states : Bool
  batch_size : Nat
  grad_norm_clip : Option ℚ
deriving DecidableEq, Repr

/-- Modelled from the spec: the layer implementations live in the external
`layers` module.  A layer registers its learnable parameters via `add_param`
(for a stateful layer this includes the learnable initial state, named with
the reserved `init` suffix, here `name ++ "_init"`), and a stateful layer
registers one previous-state shared variable via `add_v_prev_state` (named
`name ++ "_prev"`, matching the `'$_prev'` / `k[:-4] + 'init'` convention in
`net.py`'s docstrings). -/
structure LayerModel where
  name : String
  extraParams : List String
  stateful : Bool
deriving DecidableEq, Repr

/-- The parameter names a layer registers. -/
def LayerModel.paramNames (l : LayerModel) : List String :=
  l.extraParams ++ (if l.stateful then [l.name ++ "_init"] else [])

/-- The previous-state variable name a stateful layer registers. -/
def LayerModel.prevName (l : LayerModel) : Option String :=
  if l.stateful then some (l.name ++ "_prev") else none

/-- The static shape of a constructed `Net`: its options, its layer stack
(`_layers`, the D recurrent units followed by the output FC layer), the
optional id-embedder's parameters, its mode, and the bookkeeping the
file-facing operations use (`_pfx`, `_save_to`, the CPU-side `_params`). -/
structure Net where
  cfg : Config
  idEmbedderParams : List String
  layers : List LayerModel
  is_training : Bool
  pfx : String
  save_to : String
  params : List (String × Tensor)
deriving DecidableEq, Repr

/-- Keys of `_params` / `_v_params`, in registration order: the id-embedder's
parameters first (when enabled), then each layer's parameters. -/
def allParamNames (net : Net) : List String :=
  (if net.cfg.learn_id_embedding then net.idEmbedderParams else []) ++
    (net.layers.map LayerModel.paramNames).flatten

/-- Keys of `_v_prev_states`, in layer order. -/
def prevStateNames (net : Net) : List String :=
  net.layers.filterMap LayerModel.prevName

/-- `_v_params_wo_init`: parameters whose name does not end in `'init'`
(the `k[-4:] != 'init'` filter in `_init_shared_variables`). -/
def woInitNames (net : Net) : List String :=
  (allParamNames net).filter (fun k => ¬ sfx4 k = "init")

/-- `_v_params_for_init`: parameters whose name ends in `'init'`. -/
def forInitNames (net : Net) : List String :=
  (allParamNames net).filter (fun k => sfx4 k = "init")

/-- Well-formedness facts that hold for every net `_init_params` actually
builds: layer names are distinct, no ordinary (weight/bias) parameter uses the
reserved `init` suffix, and parameter keys are unique. -/
def WF (net : Net) : Prop :=
  (net.layers.map LayerModel.name).Nodup ∧
  (∀ l ∈ net.layers, ∀ p ∈ l.extraParams, ¬ sfx4 p = "init") ∧
  (∀ p ∈ net.idEmbedderParams, ¬ sfx4 p = "init") ∧
  (allParamNames net).Nodup

instance (net : Net) : Decidable (WF net) := by unfold WF; infer_instance

/-- The input ports of the training graph, in the order `net.py` lists them. -/
def trainInputs : List String :=
  ["port_i_input", "port_i_target", "port_i_time",
   "port_i_id_idx", "port_i_last_tap", "port_i_loss_tap"]

/-- The argument list handed to a layer's `setup_graph`: the input from below,
the tap, the optional time vector, and the full `v_params` / `v_prev_states`
dictionaries (`net.py` passes both dictionaries whole to every layer). -/
def layerArgsE (net : Net) (below lastTapE : Expr) (timeArg : Option Expr) : Expr :=
  elist ([below, lastTapE] ++ timeArg.toList ++
    (allParamNames net).map Expr.svar ++ (prevStateNames net).map Expr.svar)

/-- The id-embedding sub-graph: the embedder evaluated once on the one-hot
encoded identity indices (opaque node 0), tiled across the time axis of the
input (opaque node 1). -/
def embedExpr (net : Net) (inputE idE lastTapE : Expr) : Expr :=
  Expr.ext 1 (elist [Expr.ext 0 (layerArgsE net idE lastTapE none), inputE])

/-- The `cat` closure of `_setup_forward_graph`: the identity when the id
embedding is disabled, otherwise concatenation (opaque node 2) with the tiled
embedding. -/
def catF (net : Net) (inputE idE lastTapE : Expr) : Expr → Expr :=
  if net.cfg.learn_id_embedding then
    fun b => Expr.ext 2 (elist [b, embedExpr net inputE idE lastTapE])
  else
    id

/-- The vertical layer stack of `_setup_forward_graph`: each layer consumes
`cat` of the previous layer's output (the raw input for the first), yields its
output (opaque node `2*i+3`), and, when stateful, a previous-state update pair
whose new value is opaque node `2*i+4`. -/
def buildLayers (net : Net) (cat : Expr → Expr) (timeArg : Option Expr) (lastTapE : Expr) :
    List LayerModel → Nat → Expr → Expr × List (String × Expr)
  | [], _, below => (below, [])
  | l :: ls, i, below =>
    let args := layerArgsE net (cat below) lastTapE timeArg
    let out := Expr.ext (2 * i + 3) args
    let r := buildLayers net cat timeArg lastTapE ls (i + 1) out
    (r.1, (match l.prevName with
           | some s => [(s, Expr.ext (2 * i + 4) args)]
           | none => []) ++ r.2)

/-- `_setup_forward_graph`: the final output and the previous-state updates.
The time vector is threaded to the layers only when `learn_clock_params` is
enabled (otherwise `None` is passed in its place). -/
def forwardGraph (net : Net) (inputE timeE idE lastTapE : Expr) :
    Expr × List (String × Expr) :=
  buildLayers net (catF net inputE idE lastTapE)
    (if net.cfg.learn_clock_params then some timeE else none)
    lastTapE net.layers 0 inputE

/-- The training-mode forward output (`s_output_tbi` in
`_setup_training_graph`). -/
def trainOutput (net : Net) : Expr :=
  (forwardGraph net (.port "port_i_input") (.port "port_i_time")
    (.port "port_i_id_idx") (.port "port_i_last_tap")).1

/-- The training-mode `_prev_state_updates`. -/
def trainPrevUpdates (net : Net) : List (String × Expr) :=
  (forwardGraph net (.port "port_i_input") (.port "port_i_time")
    (.port "port_i_id_idx") (.port "port_i_last_tap")).2

/-- The inference-mode output; the tap is fixed at `input.shape[0] - 1`. -/
def inferOutput (net : Net) : Expr :=
  (forwardGraph net (.port "port_i_input") (.port "port_i_time")
    (.port "port_i_id_idx") (.dim0m1 (.port "port_i_input"))).1

/-- The inference-mode `_prev_state_updates`. -/
def inferPrevUpdates (net : Net) : List (String × Expr) :=
  (forwardGraph net (.port "port_i_input") (.port "port_i_time")
    (.port "port_i_id_idx") (.dim0m1 (.port "port_i_input"))).2

/-- `_setup_loss_graph`: `MSE_loss(s_output_tbi[s_loss_tap :],
s_target_tbi[s_loss_tap :])`. -/
def setup_loss_graph (outputE targetE lossTapE : Expr) : Expr :=
  .mse (.sliceFrom lossTapE outputE) (.sliceFrom lossTapE targetE)

/-- `_port_o_loss` of the training graph. -/
def lossExpr (net : Net) : Expr :=
  setup_loss_graph (trainOutput net) (.port "port_i_target") (.port "port_i_loss_tap")

/-- The optional gradient-norm clipping of `_setup_grad_updates_graph`. -/
def clipOpt (net : Net) (e : Expr) : Expr :=
  match net.cfg.grad_norm_clip with
  | some c => .clipNorm c e
  | none => e

/-- `_setup_grad_updates_graph`: each gradient shared variable is paired with
the (optionally clipped) gradient of the loss with respect to its variable. -/
def setup_grad_updates_graph (net : Net) (lossE : Expr)
    (wrt : List String) (gradVars : List String) : List (String × Expr) :=
  (gradVars.zip wrt).map (fun gw => (gw.1, clipOpt net (.grad lossE gw.2)))

/-- `_grad_updates`: gradients of the loss with respect to the non-`init`
parameters, written into `_v_grads` (named `k ++ "_grad"`). -/
def gradUpdates (net : Net) : List (String × Expr) :=
  setup_grad_updates_graph net (lossExpr net) (woInitNames net)
    ((woInitNames net).map (fun k => k ++ "_grad"))

/-- `_grad_updates_for_init`: gradients of the loss with respect to the
previous-state variables, written into `_v_grads_for_init` (named after the
previous-state variable plus `"_grad"`). -/
def gradUpdatesForInit (net : Net) : List (String × Expr) :=
  setup_grad_updates_graph net (lossExpr net) (prevStateNames net)
    ((prevStateNames net).map (fun k => k ++ "_grad"))

/-- Modelled from the spec: the optimizer plugins live in the external
`optimizers` module.  The force transform turns each gradient expression into
a force (per position, may use the learning rate and its own state variables),
and the update rule produces each parameter's new value from the parameter and
its force; both passes also expose state-initialization pairs, and the force
pass its own state-update pairs. -/
structure OptimizerModel where
  fInits : List (String × Expr)
  fUpdates : List (String × Expr)
  force : Expr → Expr → Expr
  uInits : List (String × Expr)
  updateRhs : String → Expr → Expr

/-- `_setup_param_updates_graph`: returns
(`optim_f_inits + optim_u_inits`, `optim_f_updates + optim_u_param_updates`),
the parameter updates being positionally aligned with the gradient list. -/
def setup_param_updates_graph (opt : OptimizerModel) (lrE : Expr)
    (paramNames : List String) (gradExprs : List Expr) :
    List (String × Expr) × List (String × Expr) :=
  (opt.fInits ++ opt.uInits,
   opt.fUpdates ++
     (paramNames.zip (gradExprs.map (opt.force lrE))).map
       (fun pf => (pf.1, opt.updateRhs pf.1 pf.2)))

/-- `_param_updates`: the optimizer wiring for the non-`init` parameters,
consuming the gradient accumulators. -/
def paramUpdates (net : Net) (opt : OptimizerModel) : List (String × Expr) :=
  (setup_param_updates_graph opt (.port "port_i_lr") (woInitNames net)
    ((woInitNames net).map (fun k => Expr.svar (k ++ "_grad")))).2

/-- `s_grads_for_init_flattened` and `_param_updates_for_init`: the secondary
accumulators averaged across the batch axis, fed to a second optimizer wiring
over the `init`-suffixed parameters. -/
def paramUpdatesForInit (net : Net) (opt : OptimizerModel) : List (String × Expr) :=
  (setup_param_updates_graph opt (.port "port_i_lr") (forInitNames net)
    ((prevStateNames net).map (fun k => Expr.meanAxis0 (Expr.svar (k ++ "_grad"))))).2

/-- `_optim_state_inits`, extended with the init-state optimizer's own
initializers when `learn_init_states` is enabled. -/
def optimStateInits (net : Net) (opt : OptimizerModel) : List (String × Expr) :=
  (setup_param_updates_graph opt (.port "port_i_lr") (woInitNames net)
    ((woInitNames net).map (fun k => Expr.svar (k ++ "_grad")))).1 ++
  (if net.cfg.learn_init_states then
    (setup_param_updates_graph opt (.port "port_i_lr") (forInitNames net)
      ((prevStateNames net).map (fun k => Expr.meanAxis0 (Expr.svar (k ++ "_grad"))))).1
   else [])

/-- The failure modes of `net.py`: Python `assert` failures, theano's
rejection of an unused input under `on_unused_input = 'raise'`, a missing
file, a missing archive key, and the resume options mismatch (printed and then
asserted `False`). -/
inductive NErr where
  | assertionFailed
  | unusedInput
  | fileNotFound
  | keyError
  | optionsMismatch
deriving DecidableEq, Repr

/-- theano's `on_unused_input` policy. -/
inductive Policy where
  | usRaise
  | usIgnore
deriving DecidableEq, Repr

/-- A compiled theano function: its input ports, output expressions, and
update list. -/
structure Compiled where
  inputs : List String
  outputs : List Expr
  updates : List (String × Expr)
deriving DecidableEq, Repr

/-- The ports consumed anywhere in a function's outputs or updates. -/
def usedPorts (outs : List Expr) (upds : List (String × Expr)) : List String :=
  (outs.map portsOf).flatten ++ (upds.map (fun u => portsOf u.2)).flatten

/-- `th.function`: under the `'raise'` policy an input port that the graph
never consumes is rejected at compile time; under `'ignore'` it is tolerated. -/
def thFunction (ins : List String) (outs : List Expr) (upds : List (String × Expr))
    (pol : Policy) : Except NErr Compiled :=
  if pol == Policy.usRaise && ins.any (fun p => !((usedPorts outs upds).contains p)) then
    .error .unusedInput
  else
    .ok ⟨ins, outs, upds⟩

/-- The `on_unused_input` choice of the propagate compilers:
`'raise' if learn_clock_params or learn_id_embedding else 'ignore'`. -/
def unusedPolicy (net : Net) : Policy :=
  if net.cfg.learn_clock_params || net.cfg.learn_id_embedding then
    Policy.usRaise
  else
    Policy.usIgnore

/-- The update list of `compile_f_initialize_states`: zeros when
`learn_init_states` is disabled, otherwise the batch-tiled `init` parameter
(`tt.tile(v_params[to_init(k)], (batch_size, 1))`). -/
def initStatesUpdates (net : Net) : List (String × Expr) :=
  if ¬ net.cfg.learn_init_states then
    (prevStateNames net).map (fun k => (k, Expr.zerosLike (Expr.svar k)))
  else
    (prevStateNames net).map (fun k =>
      (k, Expr.tileB net.cfg.batch_size (Expr.svar (toInit k))))

/-- `compile_f_initialize_states`: callable in both modes, no inputs. -/
def compile_f_initialize_states (net : Net) : Except NErr Compiled :=
  thFunction [] [] (initStatesUpdates net) Policy.usRaise

/-- `compile_f_fwd_propagate`: the training variant returns the loss, the
inference variant the output tensor; both update the previous states. -/
def compile_f_fwd_propagate (net : Net) : Except NErr Compiled :=
  if net.is_training then
    thFunction trainInputs [lossExpr net] (trainPrevUpdates net) (unusedPolicy net)
  else
    thFunction ["port_i_input", "port_i_time", "port_i_id_idx"]
      [inferOutput net] (inferPrevUpdates net) (unusedPolicy net)

/-- `compile_f_fwd_bwd_propagate`: training only; updates
`_grad_updates + _prev_state_updates`. -/
def compile_f_fwd_bwd_propagate (net : Net) : Except NErr Compiled :=
  if net.is_training then
    thFunction trainInputs [lossExpr net]
      (gradUpdates net ++ trainPrevUpdates net) (unusedPolicy net)
  else
    .error .assertionFailed

/-- `compile_f_update_v_params`: training only. -/
def compile_f_update_v_params (net : Net) (opt : OptimizerModel) : Except NErr Compiled :=
  if net.is_training then
    thFunction ["port_i_lr"] [] (paramUpdates net opt) Policy.usRaise
  else
    .error .assertionFailed

/-- `compile_f_fwd_bwd_for_init`: training with `learn_init_states` only;
additionally updates `_grad_updates_for_init`. -/
def compile_f_fwd_bwd_for_init (net : Net) : Except NErr Compiled :=
  if net.is_training && net.cfg.learn_init_states then
    thFunction trainInputs [lossExpr net]
      (gradUpdates net ++ trainPrevUpdates net ++ gradUpdatesForInit net)
      (unusedPolicy net)
  else
    .error .assertionFailed

/-- `compile_f_update_init_states`: training with `learn_init_states` only. -/
def compile_f_update_init_states (net : Net) (opt : OptimizerModel) : Except NErr Compiled :=
  if net.is_training && net.cfg.learn_init_states then
    thFunction ["port_i_lr"] [] (paramUpdatesForInit net opt) Policy.usRaise
  else
    .error .assertionFailed

/-- `compile_f_initialize_optimizer`: training only. -/
def compile_f_initialize_optimizer (net : Net) (opt : OptimizerModel) : Except NErr Compiled :=
  if net.is_training then
    thFunction [] [] (optimStateInits net opt) Policy.usRaise
  else
    .error .assertionFailed

/-- The workspace: file path to npz archive contents. -/
def Fs : Type := String → Option (List (String × Tensor))

/-- Write one archive. -/
def fsSet (fs : Fs) (p : String) (v : List (String × Tensor)) : Fs :=
  fun q => if q = p then some v else fs q

/-- `save_v_params_to_workspace`: training only; pulls every `_v_params`
value from the shared store into `_params` and writes the archive under
`save_to / name .npz`. -/
def save_v_params_to_workspace (net : Net) (σ : String → Tensor) (fs : Fs)
    (name : String) : Except NErr (Net × Fs) :=
  if net.is_training then
    let pulled := (allParamNames net).map (fun k => (k, σ k))
    .ok ({ net with params := pulled },
         fsSet fs (net.save_to ++ "/" ++ name ++ ".npz") pulled)
  else
    .error .assertionFailed

/-- The store after `v_param.set_value(params[k])` ran for every parameter
key: parameter variables take the archive's values, everything else keeps its
old value. -/
def loadedStore (net : Net) (σ : String → Tensor) (arr : List (String × Tensor)) :
    String → Tensor :=
  fun n =>
    if (allParamNames net).contains n then
      match arr.find? (fun kv => kv.1 == n) with
      | some kv => kv.2
      | none => σ n
    else σ n

/-- `load_v_params_from_workspace`: training only; reads the archive and sets
every `_v_params` shared value from it (a missing key is a fatal KeyError). -/
def load_v_params_from_workspace (net : Net) (σ : String → Tensor) (fs : Fs)
    (name : String) : Except NErr (String → Tensor) :=
  if net.is_training then
    match fs (net.save_to ++ "/" ++ name ++ ".npz") with
    | none => .error .fileNotFound
    | some arr =>
      if (allParamNames net).all (fun k => (arr.find? (fun kv => kv.1 == k)).isSome) then
        .ok (loadedStore net σ arr)
      else .error .keyError
  else
    .error .assertionFailed

/-- `remove_params_file_from_workspace`: training only. -/
def remove_params_file_from_workspace (net : Net) (fs : Fs) (name : String) :
    Except NErr Fs :=
  if net.is_training then
    match fs (net.save_to ++ "/" ++ name ++ ".npz") with
    | none => .error .fileNotFound
    | some _ =>
      .ok (fun q => if q = net.save_to ++ "/" ++ name ++ ".npz" then none else fs q)
  else
    .error .assertionFailed

/-- `save_param`: inference only (and the prefixed name must exist in
`_params`); exports the single parameter under its unprefixed name. -/
def save_param (net : Net) (fs : Fs) (param_name filename : String) : Except NErr Fs :=
  if !net.is_training && (net.params.find? (fun kv => kv.1 == net.pfx ++ param_name)).isSome then
    .ok (fsSet fs filename
      [(param_name,
        (((net.params.find? (fun kv => kv.1 == net.pfx ++ param_name)).map Prod.snd).getD
          ⟨[], []⟩))])
  else
    .error .assertionFailed

/-- A pickled option value. -/
inductive OptV where
  | int : Int → OptV
  | str : String → OptV
  | bool : Bool → OptV
  | rat : ℚ → OptV
deriving DecidableEq, Repr

/-- An Option Set as `net.py` handles it in `_configure`: an `OrderedDict`
(an ordered association list; `OrderedDict` equality is order-sensitive). -/
abbrev Opts : Type := List (String × OptV)

/-- Dictionary lookup. -/
def lookupO (o : Opts) (k : String) : Option OptV :=
  (o.find? (fun kv => kv.1 == k)).map Prod.snd

/-- Dictionary assignment `o[k] = v`: replace in place when the key exists
(keeping its position), append otherwise. -/
def setO (o : Opts) (k : String) (v : OptV) : Opts :=
  if (o.find? (fun kv => kv.1 == k)).isSome then
    o.map (fun kv => if kv.1 == k then (kv.1, v) else kv)
  else
    o ++ [(k, v)]

/-- The persistent state `Net.__init__` touches: one `options.pkl` and one
`params.npz` per model directory (the params archive is kept opaque, only its
presence matters to the claims). -/
structure Disk where
  optionsFile : String → Option Opts
  paramsFile : String → Bool

/-- The observable effects of construction, in order. -/
inductive Ev where
  | readOptions : String → Ev
  | wroteOptions : String → Ev
  | readParams : String → Ev
  | builtGraph : Ev
deriving DecidableEq, Repr

/-- The outcome of `_configure`: the mode, the effective Option Set, and
whether a process-unique name prefix was generated (inference mode). -/
structure ConfR where
  is_training : Bool
  options : Opts
  fresh_pfx : Bool
deriving DecidableEq, Repr

/-- `_configure`, with its event trace.  Training mode requires options,
rereads and compares the persisted options when resuming (printing and
asserting `False` on mismatch, before writing anything), then persists the
options; inference mode requires a load path, loads the persisted options,
requires `'batch_size'` in the supplied options, and overrides only that
field. -/
def configure (options : Option Opts) (save_to load_from : Option String)
    (d : Disk) : List Ev × Except NErr ConfR :=
  match save_to with
  | some sv =>
    match options with
    | none => ([], .error .assertionFailed)
    | some o =>
      match load_from with
      | some lf =>
        match d.optionsFile lf with
        | none => ([], .error .fileNotFound)
        | some lo =>
          if o ≠ lo then
            ([.readOptions lf], .error .optionsMismatch)
          else
            ([.readOptions lf, .wroteOptions sv], .ok ⟨true, o, false⟩)
      | none => ([.wroteOptions sv], .ok ⟨true, o, false⟩)
  | none =>
    match load_from with
    | none => ([], .error .assertionFailed)
    | some lf =>
      match d.optionsFile lf with
      | none => ([], .error .fileNotFound)
      | some lo =>
        match options with
        | none => ([.readOptions lf], .error .assertionFailed)
        | some o =>
          match lookupO o "batch_size" with
          | none => ([.readOptions lf], .error .assertionFailed)
          | some bv => ([.readOptions lf], .ok ⟨false, setO lo "batch_size" bv, true⟩)

/-- `Net.__init__`: `_configure`, then `_init_params` (which reads the
persisted parameter archive when a load path is given), then the graph
construction. -/
def netInit (options : Option Opts) (save_to load_from : Option String)
    (d : Disk) : List Ev × Except NErr ConfR :=
  match configure options save_to load_from d with
  | (ev, .error e) => (ev, .error e)
  | (ev, .ok c) =>
    match load_from with
    | some lf =>
      if d.paramsFile lf then
        (ev ++ [.readParams lf, .builtGraph], .ok c)
      else
        (ev, .error .fileNotFound)
    | none => (ev ++ [.builtGraph], .ok c)

theorem reads_elist (L : List Expr) (x : String) :
    x ∈ reads (elist L) ↔ ∃ e ∈ L, x ∈ reads e := by
  induction L with
  | nil => simp [elist, reads]
  | cons a r ih =>
    simp only [elist, List.foldr_cons, reads, List.mem_append]
    rw [show List.foldr Expr.econs Expr.enil r = elist r from rfl] at *
    simp [ih]

theorem portsOf_elist (L : List Expr) (x : String) :
    x ∈ portsOf (elist L) ↔ ∃ e ∈ L, x ∈ portsOf e := by
  induction L with
  | nil => simp [elist, portsOf]
  | cons a r ih =>
    simp only [elist, List.foldr_cons, portsOf, List.mem_append]
    rw [show List.foldr Expr.econs Expr.enil r = elist r from rfl] at *
    simp [ih]

theorem reads_layerArgs (net : Net) (below lastTapE : Expr) (timeArg : Option Expr)
    (hb : ∀ x ∈ reads below, x ∈ allParamNames net ++ prevStateNames net)
    (hl : reads lastTapE = [])
    (ht : ∀ t, timeArg = some t → reads t = []) :
    ∀ x ∈ reads (layerArgsE net below lastTapE timeArg),
      x ∈ allParamNames net ++ prevStateNames net := by
  intro x hx
  rcases (reads_elist _ x).1 hx with ⟨e, he, hxe⟩
  simp only [List.mem_append, List.mem_cons, List.not_mem_nil, or_false] at he
  rcases he with (((h | h) | h) | h) | h
  · exact hb x (h ▸ hxe)
  · rw [h, hl] at hxe; cases hxe
  · cases timeArg with
    | none => cases h
    | some t =>
      simp only [Option.toList_some, List.mem_singleton] at h
      rw [h, ht t rfl] at hxe; cases hxe
  · rcases List.mem_map.1 h with ⟨k, hk, hke⟩
    rw [← hke] at hxe
    simp only [reads, List.mem_singleton] at hxe
    exact List.mem_append.2 (Or.inl (hxe ▸ hk))
  · rcases List.mem_map.1 h with ⟨k, hk, hke⟩
    rw [← hke] at hxe
    simp only [reads, List.mem_singleton] at hxe
    exact List.mem_append.2 (Or.inr (hxe ▸ hk))

theorem reads_buildLayers (net : Net) (cat : Expr → Expr) (timeArg : Option Expr)
    (lastTapE : Expr)
    (hcat : ∀ b, (∀ x ∈ reads b, x ∈ allParamNames net ++ prevStateNames net) →
      ∀ x ∈ reads (cat b), x ∈ allParamNames net ++ prevStateNames net)
    (hl : reads lastTapE = [])
    (ht : ∀ t, timeArg = some t → reads t = []) :
    ∀ (ls : List LayerModel) (i : Nat) (below : Expr),
      (∀ x ∈ reads below, x ∈ allParamNames net ++ prevStateNames net) →
      (∀ x ∈ reads (buildLayers net cat timeArg lastTapE ls i below).1,
        x ∈ allParamNames net ++ prevStateNames net) ∧
      (∀ u ∈ (buildLayers net cat timeArg lastTapE ls i below).2,
        ∀ x ∈ reads u.2, x ∈ allParamNames net ++ prevStateNames net) := by
  intro ls
  induction ls with
  | nil => intro i below hb; exact ⟨hb, by intro u hu; cases hu⟩
  | cons l rest ih =>
    intro i below hb
    have hargs : ∀ x ∈ reads (layerArgsE net (cat below) lastTapE timeArg),
        x ∈ allParamNames net ++ prevStateNames net :=
      reads_layerArgs net (cat below) lastTapE timeArg (hcat below hb) hl ht
    have hout : ∀ x ∈ reads (Expr.ext (2 * i + 3)
        (layerArgsE net (cat below) lastTapE timeArg)),
        x ∈ allParamNames net ++ prevStateNames net := by
      intro x hx; exact hargs x hx
    have hrec := ih (i + 1) (Expr.ext (2 * i + 3)
      (layerArgsE net (cat below) lastTapE timeArg)) hout
    constructor
    · exact hrec.1
    · intro u hu x hx
      simp only [buildLayers, List.mem_append] at hu
      rcases hu with hu | hu
      · match hmatch : l.prevName with
        | some s =>
          rw [hmatch] at hu
          simp only [List.mem_singleton] at hu
          rw [hu] at hx
          exact hargs x hx
        | none => rw [hmatch] at hu; cases hu
      · exact hrec.2 u hu x hx

theorem reads_loss_sub (net : Net) :
    ∀ x ∈ reads (lossExpr net), x ∈ allParamNames net ++ prevStateNames net := by
  intro x hx
  have hcat : ∀ b, (∀ y ∈ reads b, y ∈ allParamNames net ++ prevStateNames net) →
      ∀ y ∈ reads (catF net (.port "port_i_input") (.port "port_i_id_idx")
        (.port "port_i_last_tap") b), y ∈ allParamNames net ++ prevStateNames net := by
    intro b hb y hy
    cases hemb : net.cfg.learn_id_embedding with
    | false =>
      simp only [catF, hemb, Bool.false_eq_true, if_false, id] at hy
      exact hb y hy
    | true =>
      simp only [catF, hemb, if_true] at hy
      have hy2 : y ∈ reads (elist [b, embedExpr net (.port "port_i_input")
          (.port "port_i_id_idx") (.port "port_i_last_tap")]) := hy
      rcases (reads_elist _ y).1 hy2 with ⟨e, he, hye⟩
      simp only [List.mem_cons, List.not_mem_nil, or_false] at he
      rcases he with he | he
      · exact hb y (he ▸ hye)
      · rw [he] at hye
        have hye2 : y ∈ reads (elist [Expr.ext 0 (layerArgsE net (.port "port_i_id_idx")
            (.port "port_i_last_tap") none), .port "port_i_input"]) := hye
        rcases (reads_elist _ y).1 hye2 with ⟨e2, he2, hye3⟩
        simp only [List.mem_cons, List.not_mem_nil, or_false] at he2
        rcases he2 with he2 | he2
        · rw [he2] at hye3
          exact reads_layerArgs net (.port "port_i_id_idx") (.port "port_i_last_tap")
            none (by intro z hz; cases hz) rfl (by intro t ht; cases ht) y hye3
        · rw [he2] at hye3; cases hye3
  have hmain := reads_buildLayers net
    (catF net (.port "port_i_input") (.port "port_i_id_idx") (.port "port_i_last_tap"))
    (if net.cfg.learn_clock_params then some (.port "port_i_time") else none)
    (.port "port_i_last_tap") hcat rfl
    (by intro t ht
        by_cases hc : net.cfg.learn_clock_params
        · simp only [hc, if_pos] at ht
          rw [← Option.some_inj.1 ht]; rfl
        · simp only [hc, if_neg] at ht; cases ht)
    net.layers 0 (.port "port_i_input") (by intro z hz; cases hz)
  simp only [lossExpr, setup_loss_graph, reads, List.append_nil, List.nil_append] at hx
  exact hmain.1 x (by simpa only [trainOutput, forwardGraph] using hx)

theorem ports_layerArgs_none (net : Net) (below lastTapE : Expr) :
    ∀ x ∈ portsOf (layerArgsE net below lastTapE none),
      x ∈ portsOf below ∨ x ∈ portsOf lastTapE := by
  intro x hx
  rcases (portsOf_elist _ x).1 hx with ⟨e, he, hxe⟩
  simp only [List.mem_append, List.mem_cons, List.not_mem_nil, or_false,
    Option.toList_none] at he
  rcases he with ((h | h) | h) | h
  · exact Or.inl (h ▸ hxe)
  · exact Or.inr (h ▸ hxe)
  · rcases List.mem_map.1 h with ⟨k, _, hke⟩
    rw [← hke] at hxe; cases hxe
  · rcases List.mem_map.1 h with ⟨k, _, hke⟩
    rw [← hke] at hxe; cases hxe

theorem ports_buildLayers (net : Net) (lastTapE : Expr) (Q : String → Prop)
    (hl : ∀ x ∈ portsOf lastTapE, Q x) :
    ∀ (ls : List LayerModel) (i : Nat) (below : Expr),
      (∀ x ∈ portsOf below, Q x) →
      (∀ x ∈ portsOf (buildLayers net id none lastTapE ls i below).1, Q x) ∧
      (∀ u ∈ (buildLayers net id none lastTapE ls i below).2,
        ∀ x ∈ portsOf u.2, Q x) := by
  intro ls
  induction ls with
  | nil => intro i below hb; exact ⟨hb, by intro u hu; cases hu⟩
  | cons l rest ih =>
    intro i below hb
    have hargs : ∀ x ∈ portsOf (layerArgsE net (id below) lastTapE none), Q x := by
      intro x hx
      rcases ports_layerArgs_none net (id below) lastTapE x hx with h | h
      · exact hb x h
      · exact hl x h
    have hrec := ih (i + 1) (Expr.ext (2 * i + 3)
      (layerArgsE net (id below) lastTapE none)) hargs
    constructor
    · exact hrec.1
    · intro u hu x hx
      simp only [buildLayers, List.mem_append] at hu
      rcases hu with hu | hu
      · match hmatch : l.prevName with
        | some s =>
          rw [hmatch] at hu
          simp only [List.mem_singleton] at hu
          rw [hu] at hx
          exact hargs x hx
        | none => rw [hmatch] at hu; cases hu
      · exact hrec.2 u hu x hx

theorem mem_usedPorts (outs : List Expr) (upds : List (String × Expr)) (x : String) :
    x ∈ usedPorts outs upds ↔
      (∃ e ∈ outs, x ∈ portsOf e) ∨ ∃ u ∈ upds, x ∈ portsOf u.2 := by
  unfold usedPorts
  rw [List.mem_append]
  constructor
  · rintro (h | h)
    · rcases List.mem_flatten.1 h with ⟨l, hl, hx⟩
      rcases List.mem_map.1 hl with ⟨e, he, rfl⟩
      exact Or.inl ⟨e, he, hx⟩
    · rcases List.mem_flatten.1 h with ⟨l, hl, hx⟩
      rcases List.mem_map.1 hl with ⟨u, hu, rfl⟩
      exact Or.inr ⟨u, hu, hx⟩
  · rintro (⟨e, he, hx⟩ | ⟨u, hu, hx⟩)
    · exact Or.inl (List.mem_flatten.2 ⟨portsOf e, List.mem_map.2 ⟨e, he, rfl⟩, hx⟩)
    · exact Or.inr (List.mem_flatten.2 ⟨portsOf u.2, List.mem_map.2 ⟨u, hu, rfl⟩, hx⟩)

/-- The names of the stateful layers, in stack order. -/
def statefulNames (net : Net) : List String :=
  net.layers.filterMap (fun l => if l.stateful then some l.name else none)

theorem prevStateNames_eq (net : Net) :
    prevStateNames net = (statefulNames net).map (fun n => n ++ "_prev") := by
  unfold prevStateNames statefulNames
  induction net.layers with
  | nil => rfl
  | cons l rest ih =>
    by_cases hs : l.stateful
    · simp [LayerModel.prevName, hs, ih]
    · simp [LayerModel.prevName, hs, ih]

theorem filter_init_layer_params :
    ∀ (ls : List LayerModel),
      (∀ l ∈ ls, ∀ p ∈ l.extraParams, ¬ sfx4 p = "init") →
      ((ls.map LayerModel.paramNames).flatten.filter (fun k => sfx4 k = "init")) =
        (ls.filterMap (fun l => if l.stateful then some l.name else none)).map
          (fun n => n ++ "_init") := by
  intro ls
  induction ls with
  | nil => intro _; rfl
  | cons l rest ih =>
    intro h
    have hl := h l (List.mem_cons_self l rest)
    have hrest := ih (fun l2 h2 => h l2 (List.mem_cons_of_mem l h2))
    simp only [List.map_cons, List.flatten_cons, List.filter_append, hrest]
    have hextra : l.extraParams.filter (fun k => sfx4 k = "init") = [] := by
      rw [List.filter_eq_nil_iff]
      intro p hp
      simpa using hl p hp
    by_cases hs : l.stateful
    · simp [LayerModel.paramNames, hs, List.filter_append, hextra, sfx4_init]
    · simp [LayerModel.paramNames, hs, List.filter_append, hextra]

theorem forInitNames_eq (net : Net) (hwf : WF net) :
    forInitNames net = (statefulNames net).map (fun n => n ++ "_init") := by
  unfold forInitNames allParamNames statefulNames
  rw [List.filter_append]
  have hemb : (if net.cfg.learn_id_embedding then net.idEmbedderParams else []).filter
      (fun k => sfx4 k = "init") = [] := by
    rw [List.filter_eq_nil_iff]
    intro p hp
    by_cases he : net.cfg.learn_id_embedding
    · simp only [he, if_true] at hp
      simpa using hwf.2.2.1 p hp
    · simp [he] at hp
  rw [hemb, List.nil_append]
  exact filter_init_layer_params net.layers hwf.2.1

theorem forInit_toInit (net : Net) (hwf : WF net) :
    forInitNames net = (prevStateNames net).map toInit := by
  rw [forInitNames_eq net hwf, prevStateNames_eq net, List.map_map]
  apply List.map_congr_left
  intro n _
  simp [Function.comp, toInit_prev]

theorem zip_self_map {α β : Type} (l : List α) (f : α → β) :
    l.zip (l.map f) = l.map (fun x => (x, f x)) := by
  induction l with
  | nil => rfl
  | cons a r ih => simp [ih]

theorem zip_map_self {α β : Type} (l : List α) (f : α → β) :
    (l.map f).zip l = l.map (fun x => (f x, x)) := by
  induction l with
  | nil => rfl
  | cons a r ih => simp [ih]

theorem gradUpdates_eq (net : Net) :
    gradUpdates net = (woInitNames net).map
      (fun k => (k ++ "_grad", clipOpt net (.grad (lossExpr net) k))) := by
  unfold gradUpdates setup_grad_updates_graph
  rw [zip_map_self, List.map_map]
  rfl

theorem gradUpdatesForInit_eq (net : Net) :
    gradUpdatesForInit net = (prevStateNames net).map
      (fun k => (k ++ "_grad", clipOpt net (.grad (lossExpr net) k))) := by
  unfold gradUpdatesForInit setup_grad_updates_graph
  rw [zip_map_self, List.map_map]
  rfl

theorem paramUpdates_eq (net : Net) (opt : OptimizerModel) :
    paramUpdates net opt = opt.fUpdates ++ (woInitNames net).map
      (fun k => (k, opt.updateRhs k
        (opt.force (.port "port_i_lr") (.svar (k ++ "_grad"))))) := by
  unfold paramUpdates setup_param_updates_graph
  rw [List.map_map, zip_self_map, List.map_map]
  rfl

theorem paramUpdatesForInit_eq (net : Net) (opt : OptimizerModel) (hwf : WF net) :
    paramUpdatesForInit net opt = opt.fUpdates ++ (prevStateNames net).map
      (fun s => (toInit s, opt.updateRhs (toInit s)
        (opt.force (.port "port_i_lr") (.meanAxis0 (.svar (s ++ "_grad")))))) := by
  unfold paramUpdatesForInit setup_param_updates_graph
  rw [forInit_toInit net hwf, List.map_map, List.zip_map', List.map_map]
  rfl

theorem grad_name_injective (a b : String) (h : a ++ "_grad" = b ++ "_grad") : a = b :=
  str_append_right_cancel h

/-- A trivial concrete engine, used to exercise the theorems on concrete nets. -/
def E0 : Engine :=
  ⟨fun _ _ => scalarT 0, fun _ _ _ _ => scalarT 0, fun _ t => t⟩

theorem E0_gradRespects : E0.GradRespects := fun _ _ _ _ _ _ => rfl

/-- A concrete stateful (recurrent) layer. -/
def layerA : LayerModel := ⟨"LSTM_0", ["LSTM_0_W"], true⟩

/-- A concrete stateless output layer. -/
def layerOut : LayerModel := ⟨"FC_output", ["FC_output_W"], false⟩

/-- A concrete training-mode net with learnable init states enabled and both
optional input features disabled. -/
def net0 : Net :=
  ⟨⟨false, false, true, 2, none⟩, [], [layerA, layerOut], true, "", "ws",
   [("LSTM_0_W", scalarT 1)]⟩

/-- `net0` with learnable init states disabled. -/
def net1 : Net := { net0 with cfg := ⟨false, false, false, 2, none⟩ }

/-- An inference-mode net. -/
def netInf : Net := { net0 with is_training := false }

/-- A concrete store giving the init parameter a well-formed value. -/
def sig0 : String → Tensor :=
  fun n => if n = "LSTM_0_init" then ⟨[3], [1, 2, 3]⟩ else ⟨[2, 3], [5, 5, 5, 5, 5, 5]⟩

/-- A concrete input-port assignment. -/
def iota0 : String → Tensor := fun _ => scalarT 0

/-- C1: the function compiled by `compile_f_initialize_states` has no inputs
and carries exactly the reset update list; invoking it sets every
previous-state variable to an all-zero tensor of its own shape when
`learn_init_states` is disabled, and to the batch-tiling of its corresponding
`init`-suffixed parameter (every batch row an identical copy of that
parameter) when it is enabled; every other shared variable is left
unchanged. -/
theorem C1_initialize_states_correct (net : Net) (E : Engine) (σ ι : String → Tensor) :
    (compile_f_initialize_states net = .ok ⟨[], [], initStatesUpdates net⟩) ∧
    (∀ k ∈ prevStateNames net,
      (net.cfg.learn_init_states = false →
        applyUpdates E (initStatesUpdates net) σ ι k = zerosLikeT (σ k) ∧
        ∀ q ∈ (applyUpdates E (initStatesUpdates net) σ ι k).data, q = 0) ∧
      (net.cfg.learn_init_states = true →
        applyUpdates E (initStatesUpdates net) σ ι k =
          tileT net.cfg.batch_size (σ (toInit k)) ∧
        ((σ (toInit k)).wf →
          ∀ i < net.cfg.batch_size,
            rowAt i (applyUpdates E (initStatesUpdates net) σ ι k) =
              (σ (toInit k)).data))) ∧
    (∀ n, n ∉ prevStateNames net → applyUpdates E (initStatesUpdates net) σ ι n = σ n) := by
  refine ⟨rfl, ?_, ?_⟩
  · intro k hk
    constructor
    · intro hoff
      have hupd : initStatesUpdates net =
          (prevStateNames net).map (fun j => (j, Expr.zerosLike (Expr.svar j))) := by
        simp [initStatesUpdates, hoff]
      rw [hupd]
      have := applyUpdates_mapped E σ ι (prevStateNames net) (fun j => j)
        (fun j => Expr.zerosLike (Expr.svar j)) (fun _ _ h => h) k hk
      rw [this]
      exact ⟨by simp [eval], by
        intro q hq
        simp only [eval] at hq
        exact zerosLikeT_all_zero (σ k) q hq⟩
    · intro hon
      have hupd : initStatesUpdates net = (prevStateNames net).map
          (fun j => (j, Expr.tileB net.cfg.batch_size (Expr.svar (toInit j)))) := by
        simp [initStatesUpdates, hon]
      rw [hupd]
      have := applyUpdates_mapped E σ ι (prevStateNames net) (fun j => j)
        (fun j => Expr.tileB net.cfg.batch_size (Expr.svar (toInit j)))
        (fun _ _ h => h) k hk
      rw [this]
      refine ⟨by simp [eval], ?_⟩
      intro hwf i hi
      simp only [eval]
      exact rowAt_tileT net.cfg.batch_size (σ (toInit k)) hwf i hi
  · intro n hn
    apply applyUpdates_not_target
    intro u hu
    by_cases hon : net.cfg.learn_init_states
    · rcases List.mem_map.1 (by simpa [initStatesUpdates, hon] using hu) with ⟨j, hj, hje⟩
      intro hc
      rw [← hje] at hc
      have hjn : j = n := hc
      exact hn (hjn ▸ hj)
    · rcases List.mem_map.1 (by simpa [initStatesUpdates, hon] using hu) with ⟨j, hj, hje⟩
      intro hc
      rw [← hje] at hc
      have hjn : j = n := hc
      exact hn (hjn ▸ hj)

/-- C1 witness: on a concrete net with learnable init states, the previous
state becomes the batch-tiled init parameter and an unrelated variable is
untouched. -/
theorem C1_witness :
    applyUpdates E0 (initStatesUpdates net0) sig0 iota0 "LSTM_0_prev" =
      tileT net0.cfg.batch_size (sig0 (toInit "LSTM_0_prev")) ∧
    applyUpdates E0 (initStatesUpdates net0) sig0 iota0 "LSTM_0_W" = sig0 "LSTM_0_W" :=
  ⟨(((C1_initialize_states_correct net0 E0 sig0 iota0).2.1 "LSTM_0_prev"
      (by decide)).2 rfl).1,
   (C1_initialize_states_correct net0 E0 sig0 iota0).2.2 "LSTM_0_W" (by decide)⟩

theorem lookupO_map_set_self :
    ∀ (o : Opts) (k : String) (v : OptV),
      (o.find? (fun kv => kv.1 == k)).isSome = true →
      lookupO (o.map (fun kv => if kv.1 == k then (kv.1, v) else kv)) k = some v := by
  intro o k v
  induction o with
  | nil => intro h; cases h
  | cons a r ih =>
    intro h
    by_cases ha : a.1 = k
    · simp [lookupO, List.find?_cons_of_pos, ha]
    · have h2 : (r.find? (fun kv => kv.1 == k)).isSome = true := by
        rw [List.find?_cons_of_neg _ (by simp [ha])] at h
        exact h
      have := ih h2
      simp only [lookupO] at this ⊢
      rw [List.map_cons, if_neg (by simpa using ha),
        List.find?_cons_of_neg _ (by simp [ha])]
      exact this

theorem lookupO_map_set_other :
    ∀ (o : Opts) (k k2 : String) (v : OptV), ¬ k2 = k →
      lookupO (o.map (fun kv => if kv.1 == k then (kv.1, v) else kv)) k2 =
        lookupO o k2 := by
  intro o k k2 v hne
  induction o with
  | nil => rfl
  | cons a r ih =>
    by_cases ha : a.1 = k
    · have hak2 : ¬ a.1 = k2 := fun h => hne (h.symm.trans ha)
      simp only [lookupO] at ih ⊢
      rw [List.map_cons, if_pos (by simpa using ha),
        List.find?_cons_of_neg _ (by simpa using hak2),
        List.find?_cons_of_neg _ (by simpa using hak2)]
      exact ih
    · by_cases ha2 : a.1 = k2
      · simp only [lookupO] at ih ⊢
        rw [List.map_cons, if_neg (by simpa using ha),
          List.find?_cons_of_pos _ (by simpa using ha2),
          List.find?_cons_of_pos _ (by simpa using ha2)]
      · simp only [lookupO] at ih ⊢
        rw [List.map_cons, if_neg (by simpa using ha),
          List.find?_cons_of_neg _ (by simpa using ha2),
          List.find?_cons_of_neg _ (by simpa using ha2)]
        exact ih

theorem lookupO_setO_self (o : Opts) (k : String) (v : OptV) :
    lookupO (setO o k v) k = some v := by
  unfold setO
  by_cases h : (o.find? (fun kv => kv.1 == k)).isSome = true
  · rw [if_pos h]
    exact lookupO_map_set_self o k v h
  · rw [if_neg h]
    have hnone : o.find? (fun kv => kv.1 == k) = none := by
      cases hf : o.find? (fun kv => kv.1 == k) with
      | none => rfl
      | some u => rw [hf] at h; exact absurd rfl h
    unfold lookupO
    rw [List.find?_append, hnone]
    simp [List.find?]

theorem lookupO_setO_other (o : Opts) (k k2 : String) (v : OptV) (hne : ¬ k2 = k) :
    lookupO (setO o k v) k2 = lookupO o k2 := by
  unfold setO
  by_cases h : (o.find? (fun kv => kv.1 == k)).isSome = true
  · rw [if_pos h]
    exact lookupO_map_set_other o k k2 v hne
  · rw [if_neg h]
    unfold lookupO
    rw [List.find?_append]
    cases hf : o.find? (fun kv => kv.1 == k2) with
    | some u => rfl
    | none =>
      simp only [Option.none_or]
      rw [List.find?_cons_of_neg _ (by simp; intro hc; exact absurd hc.symm hne)]
      rfl

/-- C2: resuming training (`save_to` and `load_from` both given) with an
Option Set differing from the persisted one fails fatally inside
`_configure`: the result is the mismatch error, the persisted parameter
archive is never read, and no graph is built (the new options are not even
written). -/
theorem C2_resume_mismatch_aborts (o lo : Opts) (sv lf : String) (d : Disk)
    (hlo : d.optionsFile lf = some lo) (hne : o ≠ lo) :
    (netInit (some o) (some sv) (some lf) d).2 = .error .optionsMismatch ∧
    (∀ p, Ev.readParams p ∉ (netInit (some o) (some sv) (some lf) d).1) ∧
    Ev.builtGraph ∉ (netInit (some o) (some sv) (some lf) d).1 ∧
    (∀ p, Ev.wroteOptions p ∉ (netInit (some o) (some sv) (some lf) d).1) := by
  have hc : configure (some o) (some sv) (some lf) d =
      ([.readOptions lf], .error .optionsMismatch) := by
    simp [configure, hlo, hne]
  have hn : netInit (some o) (some sv) (some lf) d =
      ([.readOptions lf], .error .optionsMismatch) := by
    rw [netInit, hc]
  rw [hn]
  refine ⟨rfl, ?_, ?_, ?_⟩ <;> simp

/-- C2 witness: a concrete mismatching resume. -/
theorem C2_witness :
    (netInit (some [("net_depth", OptV.int 2)]) (some "new") (some "old")
      ⟨fun p => if p = "old" then some [("net_depth", OptV.int 3)] else none,
       fun _ => true⟩).2 = .error .optionsMismatch ∧
    Ev.readParams "old" ∉
      (netInit (some [("net_depth", OptV.int 2)]) (some "new") (some "old")
        ⟨fun p => if p = "old" then some [("net_depth", OptV.int 3)] else none,
         fun _ => true⟩).1 :=
  ⟨(C2_resume_mismatch_aborts [("net_depth", OptV.int 2)] [("net_depth", OptV.int 3)]
      "new" "old" _ (by decide) (by decide)).1,
   (C2_resume_mismatch_aborts [("net_depth", OptV.int 2)] [("net_depth", OptV.int 3)]
      "new" "old" _ (by decide) (by decide)).2.1 "old"⟩

/-- C6: inference-mode construction (`save_to` absent, `load_from` given)
yields the Option Set persisted on disk with only `batch_size` replaced by
the caller-supplied value, and fails fatally when the supplied options lack
`batch_size`. -/
theorem C6_inference_options (o lo : Opts) (lf : String) (d : Disk)
    (hlo : d.optionsFile lf = some lo) (hp : d.paramsFile lf = true) :
    (∀ bv, lookupO o "batch_size" = some bv →
      (netInit (some o) none (some lf) d).2 =
        .ok ⟨false, setO lo "batch_size" bv, true⟩ ∧
      lookupO (setO lo "batch_size" bv) "batch_size" = some bv ∧
      (∀ k, ¬ k = "batch_size" →
        lookupO (setO lo "batch_size" bv) k = lookupO lo k)) ∧
    (lookupO o "batch_size" = none →
      (netInit (some o) none (some lf) d).2 = .error .assertionFailed) := by
  constructor
  · intro bv hbv
    have hc : configure (some o) none (some lf) d =
        ([.readOptions lf], .ok ⟨false, setO lo "batch_size" bv, true⟩) := by
      simp [configure, hlo, hbv]
    refine ⟨?_, lookupO_setO_self lo "batch_size" bv,
      fun k hk => lookupO_setO_other lo "batch_size" k bv hk⟩
    rw [netInit, hc]
    simp [hp]
  · intro hnone
    have hc : configure (some o) none (some lf) d =
        ([.readOptions lf], .error .assertionFailed) := by
      simp [configure, hlo, hnone]
    rw [netInit, hc]

/-- The persisted Option Set used by the C6 witness. -/
def lo6 : Opts := [("batch_size", OptV.int 4), ("net_depth", OptV.int 2)]

/-- The disk used by the C6 witness. -/
def disk6 : Disk := ⟨fun p => if p = "m" then some lo6 else none, fun _ => true⟩

/-- C6 witness: a concrete inference construction overriding `batch_size`
and keeping `net_depth`, plus the fatal missing-`batch_size` case. -/
theorem C6_witness :
    (netInit (some [("batch_size", OptV.int 8)]) none (some "m") disk6).2 =
      .ok ⟨false, setO lo6 "batch_size" (OptV.int 8), true⟩ ∧
    lookupO (setO lo6 "batch_size" (OptV.int 8)) "net_depth" =
      lookupO lo6 "net_depth" ∧
    (netInit (some [("net_depth", OptV.int 2)]) none (some "m") disk6).2 =
      .error .assertionFailed :=
  ⟨((C6_inference_options [("batch_size", OptV.int 8)] lo6 "m" disk6
      (by decide) (by decide)).1 (OptV.int 8) (by decide)).1,
   ((C6_inference_options [("batch_size", OptV.int 8)] lo6 "m" disk6
      (by decide) (by decide)).1 (OptV.int 8) (by decide)).2.2 "net_depth" (by decide),
   (C6_inference_options [("net_depth", OptV.int 2)] lo6 "m" disk6
      (by decide) (by decide)).2 (by decide)⟩

theorem reads_clipOpt (net : Net) (e : Expr) : reads (clipOpt net e) = reads e := by
  unfold clipOpt
  cases net.cfg.grad_norm_clip with
  | none => rfl
  | some c => rfl

theorem gradUpdates_lookup (net : Net) (E : Engine) (σ ι : String → Tensor)
    (k : String) (hk : k ∈ woInitNames net) :
    applyUpdates E (gradUpdates net ++ trainPrevUpdates net) σ ι (k ++ "_grad") =
      eval E σ ι (clipOpt net (.grad (lossExpr net) k)) := by
  rw [applyUpdates_append_left _ _ _ _ _ _ (by
    rw [gradUpdates_eq]
    apply List.find?_isSome.2
    exact ⟨(k ++ "_grad", clipOpt net (.grad (lossExpr net) k)),
      List.mem_map.2 ⟨k, hk, rfl⟩, by simp⟩)]
  rw [gradUpdates_eq]
  exact applyUpdates_mapped E σ ι (woInitNames net) (fun j => j ++ "_grad")
    (fun j => clipOpt net (.grad (lossExpr net) j))
    (fun _ _ h => grad_name_injective _ _ h) k hk

/-- C3: each call of the function compiled by `compile_f_fwd_bwd_propagate`
overwrites every gradient accumulator with the (optionally norm-clipped)
gradient of the current loss with respect to its non-`init` parameter; the
written value is computed from the call's inputs and the parameter /
previous-state variables only, so it does not depend on (in particular does
not add to) the accumulator's previous contents. -/
theorem C3_fwd_bwd_overwrites_grads (net : Net) (E : Engine) (hE : E.GradRespects)
    (σ τ ι : String → Tensor)
    (hagree : ∀ x ∈ allParamNames net ++ prevStateNames net, σ x = τ x) :
    (∀ c, compile_f_fwd_bwd_propagate net = .ok c →
      c.updates = gradUpdates net ++ trainPrevUpdates net) ∧
    (∀ k ∈ woInitNames net,
      applyUpdates E (gradUpdates net ++ trainPrevUpdates net) σ ι (k ++ "_grad") =
        eval E σ ι (clipOpt net (.grad (lossExpr net) k)) ∧
      applyUpdates E (gradUpdates net ++ trainPrevUpdates net) σ ι (k ++ "_grad") =
        applyUpdates E (gradUpdates net ++ trainPrevUpdates net) τ ι (k ++ "_grad")) := by
  constructor
  · intro c hc
    unfold compile_f_fwd_bwd_propagate at hc
    cases htr : net.is_training with
    | false => rw [htr] at hc; simp at hc
    | true =>
      rw [htr] at hc
      simp only [if_true] at hc
      unfold thFunction at hc
      by_cases hcond : (unusedPolicy net == Policy.usRaise &&
          trainInputs.any (fun p =>
            !((usedPorts [lossExpr net]
              (gradUpdates net ++ trainPrevUpdates net)).contains p))) = true
      · rw [if_pos hcond] at hc; cases hc
      · rw [if_neg hcond] at hc
        cases hc
        rfl
  · intro k hk
    refine ⟨gradUpdates_lookup net E σ ι k hk, ?_⟩
    rw [gradUpdates_lookup net E σ ι k hk, gradUpdates_lookup net E τ ι k hk]
    apply eval_congr E hE σ τ ι
    rw [reads_clipOpt]
    intro x hx
    exact hagree x (reads_loss_sub net x (by simpa [reads] using hx))

/-- A store differing from `sig0` only on a gradient accumulator. -/
def tau0 : String → Tensor :=
  fun n => if n = "LSTM_0_W_grad" then ⟨[1], [9]⟩ else sig0 n

/-- C3 witness: on a concrete net, the new accumulator value equals the
evaluated gradient expression and is insensitive to the accumulator's old
value. -/
theorem C3_witness :
    applyUpdates E0 (gradUpdates net0 ++ trainPrevUpdates net0) sig0 iota0
      ("LSTM_0_W" ++ "_grad") =
      eval E0 sig0 iota0 (clipOpt net0 (.grad (lossExpr net0) "LSTM_0_W")) ∧
    applyUpdates E0 (gradUpdates net0 ++ trainPrevUpdates net0) sig0 iota0
      ("LSTM_0_W" ++ "_grad") =
      applyUpdates E0 (gradUpdates net0 ++ trainPrevUpdates net0) tau0 iota0
        ("LSTM_0_W" ++ "_grad") :=
  (C3_fwd_bwd_overwrites_grads net0 E0 E0_gradRespects sig0 tau0 iota0
    (by decide)).2 "LSTM_0_W" (by decide)

/-- C4: with `learn_init_states` enabled the training graph differentiates
the scalar loss a second time, with respect to the batch-dimensioned
previous-state variables, writing into the second set of accumulators
(`s ++ "_grad"` for each previous-state variable `s`); those accumulators are
averaged across the batch axis (`tt.mean(·, axis = 0)`) and routed into a
second optimizer wiring whose parameter updates target exactly the
`init`-suffixed parameters, each aligned with its own previous-state
variable (`toInit s`). -/
theorem C4_second_grad_path (net : Net) (opt : OptimizerModel) (hwf : WF net)
    (hlis : net.cfg.learn_init_states = true) :
    gradUpdatesForInit net = (prevStateNames net).map
      (fun s => (s ++ "_grad", clipOpt net (.grad (lossExpr net) s))) ∧
    paramUpdatesForInit net opt = opt.fUpdates ++ (prevStateNames net).map
      (fun s => (toInit s, opt.updateRhs (toInit s)
        (opt.force (.port "port_i_lr") (.meanAxis0 (.svar (s ++ "_grad")))))) ∧
    (∀ (E : Engine) (σ ι : String → Tensor) (s : String),
      eval E σ ι (.meanAxis0 (.svar (s ++ "_grad"))) = meanA0 (σ (s ++ "_grad"))) ∧
    (∀ c, compile_f_fwd_bwd_for_init net = .ok c →
      c.updates = gradUpdates net ++ trainPrevUpdates net ++ gradUpdatesForInit net) ∧
    (∀ c, compile_f_update_init_states net opt = .ok c →
      c.updates = paramUpdatesForInit net opt) := by
  refine ⟨gradUpdatesForInit_eq net, paramUpdatesForInit_eq net opt hwf,
    fun E σ ι s => rfl, ?_, ?_⟩
  · intro c hc
    unfold compile_f_fwd_bwd_for_init at hc
    by_cases hb : (net.is_training && net.cfg.learn_init_states) = true
    · rw [if_pos hb] at hc
      unfold thFunction at hc
      by_cases hcond : (unusedPolicy net == Policy.usRaise &&
          trainInputs.any (fun p =>
            !((usedPorts [lossExpr net]
              (gradUpdates net ++ trainPrevUpdates net ++
                gradUpdatesForInit net)).contains p))) = true
      · rw [if_pos hcond] at hc; cases hc
      · rw [if_neg hcond] at hc
        cases hc
        rfl
    · rw [if_neg hb] at hc; cases hc
  · intro c hc
    unfold compile_f_update_init_states at hc
    by_cases hb : (net.is_training && net.cfg.learn_init_states) = true
    · rw [if_pos hb] at hc
      unfold thFunction at hc
      by_cases hcond : (Policy.usRaise == Policy.usRaise &&
          ["port_i_lr"].any (fun p =>
            !((usedPorts [] (paramUpdatesForInit net opt)).contains p))) = true
      · rw [if_pos hcond] at hc; cases hc
      · rw [if_neg hcond] at hc
        cases hc
        rfl
    · rw [if_neg hb] at hc; cases hc

/-- A trivial concrete optimizer model. -/
def opt0 : OptimizerModel := ⟨[], [], fun _ g => g, [], fun _ f => f⟩

/-- C4 witness: the two update lists of the concrete net take the stated
shapes. -/
theorem C4_witness :
    gradUpdatesForInit net0 = (prevStateNames net0).map
      (fun s => (s ++ "_grad", clipOpt net0 (.grad (lossExpr net0) s))) ∧
    paramUpdatesForInit net0 opt0 = opt0.fUpdates ++ (prevStateNames net0).map
      (fun s => (toInit s, opt0.updateRhs (toInit s)
        (opt0.force (.port "port_i_lr") (.meanAxis0 (.svar (s ++ "_grad")))))) :=
  ⟨(C4_second_grad_path net0 opt0 (by decide) rfl).1,
   (C4_second_grad_path net0 opt0 (by decide) rfl).2.1⟩

/-- C5: the training loss is the mean-squared error of the output against the
target with both restricted to the time steps at or after the loss-tap index
(`x[loss_tap :]` drops the first `loss_tap` time slices); consequently two
runs whose outputs and targets agree from the loss tap onwards have the same
loss — the earlier time steps contribute nothing. -/
theorem C5_loss_is_tail_mse (net : Net) (E : Engine) (σ ι : String → Tensor)
    (tap : Nat) (htap : ι "port_i_loss_tap" = natT tap) :
    eval E σ ι (lossExpr net) =
      mseT (sliceT tap (eval E σ ι (trainOutput net)))
        (sliceT tap (ι "port_i_target")) ∧
    (∀ (κ2 : String → Tensor), κ2 "port_i_loss_tap" = natT tap →
      sliceT tap (eval E σ κ2 (trainOutput net)) =
        sliceT tap (eval E σ ι (trainOutput net)) →
      sliceT tap (κ2 "port_i_target") = sliceT tap (ι "port_i_target") →
      eval E σ κ2 (lossExpr net) = eval E σ ι (lossExpr net)) := by
  have hbase : ∀ (κ : String → Tensor), κ "port_i_loss_tap" = natT tap →
      eval E σ κ (lossExpr net) =
        mseT (sliceT tap (eval E σ κ (trainOutput net)))
          (sliceT tap (κ "port_i_target")) := by
    intro κ hκ
    simp only [lossExpr, setup_loss_graph, eval, hκ, toNatT_natT]
  refine ⟨hbase ι htap, ?_⟩
  intro κ2 htap' hout htgt
  rw [hbase κ2 htap', hbase ι htap, hout, htgt]

/-- A port assignment with loss tap 1 and a 3-step target. -/
def iota5 : String → Tensor :=
  fun n => if n = "port_i_loss_tap" then natT 1
    else if n = "port_i_target" then ⟨[3, 1, 1], [1, 2, 3]⟩ else scalarT 0

/-- `iota5` with the target changed only before the loss tap. -/
def iota5b : String → Tensor :=
  fun n => if n = "port_i_target" then ⟨[3, 1, 1], [9, 2, 3]⟩ else iota5 n

/-- C5 witness: on a concrete net the loss is the tail mean-squared error,
and changing the target strictly before the loss tap leaves it unchanged. -/
theorem C5_witness :
    eval E0 sig0 iota5 (lossExpr net0) =
      mseT (sliceT 1 (eval E0 sig0 iota5 (trainOutput net0)))
        (sliceT 1 (iota5 "port_i_target")) ∧
    eval E0 sig0 iota5b (lossExpr net0) = eval E0 sig0 iota5 (lossExpr net0) :=
  ⟨(C5_loss_is_tail_mse net0 E0 sig0 iota5 1 (by decide)).1,
   (C5_loss_is_tail_mse net0 E0 sig0 iota5 1 (by decide)).2 iota5b
     (by decide) (by decide) (by decide)⟩

theorem forwardGraph_plain (net : Net)
    (h1 : net.cfg.learn_clock_params = false)
    (h2 : net.cfg.learn_id_embedding = false) (inputE timeE idE lastTapE : Expr) :
    forwardGraph net inputE timeE idE lastTapE =
      buildLayers net id none lastTapE net.layers 0 inputE := by
  unfold forwardGraph catF
  rw [h1, h2]
  simp

theorem ports_train_graph (net : Net)
    (h1 : net.cfg.learn_clock_params = false)
    (h2 : net.cfg.learn_id_embedding = false) :
    ∀ x ∈ usedPorts [lossExpr net] (trainPrevUpdates net),
      x ∈ ["port_i_input", "port_i_target", "port_i_last_tap", "port_i_loss_tap"] := by
  have hfg := forwardGraph_plain net h1 h2 (.port "port_i_input") (.port "port_i_time")
    (.port "port_i_id_idx") (.port "port_i_last_tap")
  have hb := ports_buildLayers net (.port "port_i_last_tap")
    (fun x => x ∈ ["port_i_input", "port_i_target", "port_i_last_tap", "port_i_loss_tap"])
    (by intro x hx
        simp only [portsOf, List.mem_singleton] at hx
        simp [hx])
    net.layers 0 (.port "port_i_input")
    (by intro x hx
        simp only [portsOf, List.mem_singleton] at hx
        simp [hx])
  intro x hx
  rcases (mem_usedPorts _ _ x).1 hx with ⟨e, he, hxe⟩ | ⟨u, hu, hxe⟩
  · simp only [List.mem_singleton] at he
    rw [he] at hxe
    have hxe2 : x ∈ (["port_i_loss_tap"] ++ portsOf (trainOutput net)) ++
        (["port_i_loss_tap"] ++ ["port_i_target"]) := hxe
    rcases List.mem_append.1 hxe2 with h | h
    · rcases List.mem_append.1 h with h | h
      · simp only [List.mem_singleton] at h; simp [h]
      · have hxe3 : x ∈ portsOf (buildLayers net id none (.port "port_i_last_tap")
            net.layers 0 (.port "port_i_input")).1 := by
          rw [show (buildLayers net id none (.port "port_i_last_tap")
              net.layers 0 (.port "port_i_input")).1 = trainOutput net from
            congrArg Prod.fst hfg.symm]
          exact h
        exact hb.1 x hxe3
    · rcases List.mem_append.1 h with h | h
      · simp only [List.mem_singleton] at h; simp [h]
      · simp only [List.mem_singleton] at h; simp [h]
  · have hu2 : u ∈ (buildLayers net id none (.port "port_i_last_tap")
        net.layers 0 (.port "port_i_input")).2 := by
      rw [show (buildLayers net id none (.port "port_i_last_tap")
          net.layers 0 (.port "port_i_input")).2 = trainPrevUpdates net from
        congrArg Prod.snd hfg.symm]
      exact hu
    exact hb.2 u hu2 x hxe

/-- C7: when both the per-clock-parameters and the identity-embedding options
are disabled, the compiled forward and forward-backward functions still
declare the time and identity-index ports, and compilation does not reject
them even though they are dead in the graph (they appear nowhere among the
consumed ports of the loss or the state updates): the `'ignore'` unused-input
policy is selected, so `th.function` succeeds. -/
theorem C7_unused_ports_tolerated (net : Net)
    (h1 : net.cfg.learn_clock_params = false)
    (h2 : net.cfg.learn_id_embedding = false) :
    ("port_i_time" ∈ trainInputs ∧ "port_i_id_idx" ∈ trainInputs) ∧
    (net.is_training = true →
      compile_f_fwd_propagate net =
        .ok ⟨trainInputs, [lossExpr net], trainPrevUpdates net⟩ ∧
      compile_f_fwd_bwd_propagate net =
        .ok ⟨trainInputs, [lossExpr net], gradUpdates net ++ trainPrevUpdates net⟩) ∧
    (net.is_training = false →
      compile_f_fwd_propagate net =
        .ok ⟨["port_i_input", "port_i_time", "port_i_id_idx"],
             [inferOutput net], inferPrevUpdates net⟩) ∧
    ("port_i_time" ∉ usedPorts [lossExpr net] (trainPrevUpdates net) ∧
     "port_i_id_idx" ∉ usedPorts [lossExpr net] (trainPrevUpdates net)) := by
  have hpol : unusedPolicy net = Policy.usIgnore := by
    simp [unusedPolicy, h1, h2]
  refine ⟨⟨by simp [trainInputs], by simp [trainInputs]⟩, ?_, ?_, ?_, ?_⟩
  · intro htr
    constructor
    · unfold compile_f_fwd_propagate
      rw [htr, if_pos rfl, hpol]
      rfl
    · unfold compile_f_fwd_bwd_propagate
      rw [htr, if_pos rfl, hpol]
      rfl
  · intro htr
    unfold compile_f_fwd_propagate
    rw [htr]
    simp only [Bool.false_eq_true, if_false]
    rw [hpol]
    rfl
  · intro hmem
    have := ports_train_graph net h1 h2 "port_i_time" hmem
    simp at this
  · intro hmem
    have := ports_train_graph net h1 h2 "port_i_id_idx" hmem
    simp at this

/-- C7 witness: the concrete net (both features disabled) compiles its
forward-backward function, and the time port is dead in its graph. -/
theorem C7_witness :
    compile_f_fwd_bwd_propagate net0 =
      .ok ⟨trainInputs, [lossExpr net0], gradUpdates net0 ++ trainPrevUpdates net0⟩ ∧
    "port_i_time" ∉ usedPorts [lossExpr net0] (trainPrevUpdates net0) :=
  ⟨((C7_unused_ports_tolerated net0 rfl rfl).2.1 rfl).2,
   (C7_unused_ports_tolerated net0 rfl rfl).2.2.2.1⟩

theorem find?_map_pull (L : List String) (σ : String → Tensor) (n : String) :
    (L.map (fun k => (k, σ k))).find? (fun kv => kv.1 == n) =
      if n ∈ L then some (n, σ n) else none := by
  induction L with
  | nil => simp
  | cons k r ih =>
    by_cases hk : k = n
    · subst hk
      rw [List.map_cons, List.find?_cons_of_pos _ (by simp)]
      simp
    · rw [List.map_cons, List.find?_cons_of_neg _ (by simpa using hk), ih]
      by_cases hn : n ∈ r
      · rw [if_pos hn, if_pos (List.mem_cons_of_mem k hn)]
      · rw [if_neg hn, if_neg (by
          intro hc
          rcases List.mem_cons.1 hc with hc | hc
          · exact hk hc.symm
          · exact hn hc)]

/-- The parameter list pulled from the shared store by
`save_v_params_to_workspace`. -/
def pulledParams (net : Net) (σ : String → Tensor) : List (String × Tensor) :=
  (allParamNames net).map (fun k => (k, σ k))

/-- The net after `save_v_params_to_workspace` refreshed `_params`. -/
def pulledNet (net : Net) (σ : String → Tensor) : Net :=
  { net with params := pulledParams net σ }

/-- C8: `save_v_params_to_workspace name` followed by
`load_v_params_from_workspace name` on a training-mode net succeeds, and the
resulting shared store is pointwise identical to the store at save time — in
particular every parameter's shared value is bit-identical to its saved
value. -/
theorem C8_workspace_roundtrip (net : Net) (σ : String → Tensor) (fs : Fs)
    (name : String) (htr : net.is_training = true) :
    save_v_params_to_workspace net σ fs name =
      .ok (pulledNet net σ,
           fsSet fs (net.save_to ++ "/" ++ name ++ ".npz") (pulledParams net σ)) ∧
    load_v_params_from_workspace (pulledNet net σ) σ
        (fsSet fs (net.save_to ++ "/" ++ name ++ ".npz") (pulledParams net σ)) name =
      .ok (loadedStore (pulledNet net σ) σ (pulledParams net σ)) ∧
    (∀ n, loadedStore (pulledNet net σ) σ (pulledParams net σ) n = σ n) := by
  have hpn : allParamNames (pulledNet net σ) = allParamNames net := rfl
  have hall : (allParamNames (pulledNet net σ)).all
      (fun k => ((pulledParams net σ).find? (fun kv => kv.1 == k)).isSome) = true := by
    rw [List.all_eq_true]
    intro k hk
    rw [hpn] at hk
    rw [pulledParams, find?_map_pull, if_pos hk]
    rfl
  refine ⟨by simp [save_v_params_to_workspace, htr, pulledNet, pulledParams], ?_, ?_⟩
  · unfold load_v_params_from_workspace
    rw [if_pos (by simpa [pulledNet] using htr)]
    have hpath : fsSet fs (net.save_to ++ "/" ++ name ++ ".npz") (pulledParams net σ)
        ((pulledNet net σ).save_to ++ "/" ++ name ++ ".npz") =
        some (pulledParams net σ) := by
      simp [fsSet, pulledNet]
    rw [hpath]
    exact if_pos hall
  · intro n
    unfold loadedStore
    by_cases hmem : n ∈ allParamNames (pulledNet net σ)
    · rw [if_pos (by simpa [List.elem_iff] using hmem), pulledParams, find?_map_pull,
        if_pos (by rw [hpn] at hmem; exact hmem)]
    · rw [if_neg (by simpa [List.elem_iff] using hmem)]

/-- C8 witness: concrete round trip on `net0` restores the weight value. -/
theorem C8_witness :
    loadedStore (pulledNet net0 sig0) sig0 (pulledParams net0 sig0) "LSTM_0_W" =
      sig0 "LSTM_0_W" :=
  (C8_workspace_roundtrip net0 sig0 (fun _ => none) "params" rfl).2.2 "LSTM_0_W"

/-- C9: every training-only operation — compiling the forward-backward,
parameter-update, optimizer-init and init-state (for-init forward-backward
and init-state update) functions, and the workspace snapshot save / load /
remove operations — fails fast with an assertion-style fatal error on an
inference-mode net, and the inference-only `save_param` fails fast on a
training-mode net. -/
theorem C9_mode_violations (net : Net) (opt : OptimizerModel)
    (σ : String → Tensor) (fs : Fs) (name pname file : String) :
    (net.is_training = false →
      compile_f_fwd_bwd_propagate net = .error .assertionFailed ∧
      compile_f_update_v_params net opt = .error .assertionFailed ∧
      compile_f_fwd_bwd_for_init net = .error .assertionFailed ∧
      compile_f_update_init_states net opt = .error .assertionFailed ∧
      compile_f_initialize_optimizer net opt = .error .assertionFailed ∧
      save_v_params_to_workspace net σ fs name = .error .assertionFailed ∧
      load_v_params_from_workspace net σ fs name = .error .assertionFailed ∧
      remove_params_file_from_workspace net fs name = .error .assertionFailed) ∧
    (net.is_training = true →
      save_param net fs pname file = .error .assertionFailed) := by
  constructor
  · intro hinf
    refine ⟨?_, ?_, ?_, ?_, ?_, ?_, ?_, ?_⟩
    · simp [compile_f_fwd_bwd_propagate, hinf]
    · simp [compile_f_update_v_params, hinf]
    · simp [compile_f_fwd_bwd_for_init, hinf]
    · simp [compile_f_update_init_states, hinf]
    · simp [compile_f_initialize_optimizer, hinf]
    · simp [save_v_params_to_workspace, hinf]
    · simp [load_v_params_from_workspace, hinf]
    · simp [remove_params_file_from_workspace, hinf]
  · intro htr
    simp [save_param, htr]

/-- C9 witness: the violations on the concrete inference and training nets. -/
theorem C9_witness :
    compile_f_fwd_bwd_propagate netInf = .error .assertionFailed ∧
    save_v_params_to_workspace netInf sig0 (fun _ => none) "params" =
      .error .assertionFailed ∧
    save_param net0 (fun _ => none) "LSTM_0_W" "out" = .error .assertionFailed :=
  ⟨((C9_mode_violations netInf opt0 sig0 (fun _ => none) "params" "LSTM_0_W" "out").1
      rfl).1,
   ((C9_mode_violations netInf opt0 sig0 (fun _ => none) "params" "LSTM_0_W" "out").1
      rfl).2.2.2.2.2.1,
   (C9_mode_violations net0 opt0 sig0 (fun _ => none) "params" "LSTM_0_W" "out").2 rfl⟩

/-- C10: the `init`-suffixed and non-`init` parameters partition the full
parameter set; the regular gradient graph differentiates with respect to
exactly the non-`init` parameters and the regular update graph's
parameter-valued targets are exactly the non-`init` parameters, while the
init-state update graph's parameter-valued targets are exactly the
`init`-suffixed parameters; no parameter is targeted by both update paths. -/
theorem C10_init_partition (net : Net) (opt : OptimizerModel) (hwf : WF net)
    (hopt : ∀ u ∈ opt.fUpdates, ¬ u.1 ∈ allParamNames net) :
    (∀ k ∈ allParamNames net, k ∈ woInitNames net ∨ k ∈ forInitNames net) ∧
    (∀ k, ¬ (k ∈ woInitNames net ∧ k ∈ forInitNames net)) ∧
    (∀ k ∈ woInitNames net, k ∈ allParamNames net) ∧
    (∀ k ∈ forInitNames net, k ∈ allParamNames net) ∧
    gradUpdates net = (woInitNames net).map
      (fun k => (k ++ "_grad", clipOpt net (.grad (lossExpr net) k))) ∧
    ((paramUpdates net opt).map Prod.fst).filter
      (fun n => n ∈ allParamNames net) = woInitNames net ∧
    (net.cfg.learn_init_states = true →
      ((paramUpdatesForInit net opt).map Prod.fst).filter
        (fun n => n ∈ allParamNames net) = forInitNames net) ∧
    (∀ k, ¬ (k ∈ ((paramUpdates net opt).map Prod.fst).filter
        (fun n => n ∈ allParamNames net) ∧
      k ∈ ((paramUpdatesForInit net opt).map Prod.fst).filter
        (fun n => n ∈ allParamNames net))) := by
  have hdisj : ∀ k, ¬ (k ∈ woInitNames net ∧ k ∈ forInitNames net) := by
    intro k ⟨h1, h2⟩
    have p1 := (List.mem_filter.1 h1).2
    have p2 := (List.mem_filter.1 h2).2
    simp only [decide_eq_true_eq] at p1 p2
    exact p1 p2
  have hleft : ((opt.fUpdates.map Prod.fst).filter
      (fun n => n ∈ allParamNames net)) = [] := by
    rw [List.filter_eq_nil_iff]
    intro a ha
    rcases List.mem_map.1 ha with ⟨u, hu, hue⟩
    simpa [← hue] using hopt u hu
  have hfil1 : ((paramUpdates net opt).map Prod.fst).filter
      (fun n => n ∈ allParamNames net) = woInitNames net := by
    rw [paramUpdates_eq, List.map_append, List.filter_append, hleft,
      List.nil_append, List.map_map]
    rw [show (Prod.fst ∘ (fun k => (k, opt.updateRhs k
        (opt.force (.port "port_i_lr") (.svar (k ++ "_grad")))))) =
      (fun k : String => k) from rfl]
    rw [List.map_id']
    rw [List.filter_eq_self]
    intro a ha
    simpa using (List.mem_filter.1 ha).1
  have hfil2 : ((paramUpdatesForInit net opt).map Prod.fst).filter
      (fun n => n ∈ allParamNames net) = forInitNames net := by
    rw [paramUpdatesForInit_eq net opt hwf, List.map_append, List.filter_append,
      hleft, List.nil_append, List.map_map]
    rw [show (Prod.fst ∘ (fun s => (toInit s, opt.updateRhs (toInit s)
        (opt.force (.port "port_i_lr") (.meanAxis0 (.svar (s ++ "_grad"))))))) =
      toInit from rfl]
    rw [← forInit_toInit net hwf]
    rw [List.filter_eq_self]
    intro a ha
    simpa using (List.mem_filter.1 ha).1
  refine ⟨?_, hdisj, ?_, ?_, gradUpdates_eq net, hfil1, fun _ => hfil2, ?_⟩
  · intro k hk
    by_cases hi : sfx4 k = "init"
    · exact Or.inr (List.mem_filter.2 ⟨hk, by simpa using hi⟩)
    · exact Or.inl (List.mem_filter.2 ⟨hk, by simpa using hi⟩)
  · intro k hk
    exact (List.mem_filter.1 hk).1
  · intro k hk
    exact (List.mem_filter.1 hk).1
  · intro k ⟨h1, h2⟩
    rw [hfil1] at h1
    rw [hfil2] at h2
    exact hdisj k ⟨h1, h2⟩

/-- C10 witness: the concrete net's partition and target sets. -/
theorem C10_witness :
    ((paramUpdates net0 opt0).map Prod.fst).filter
      (fun n => n ∈ allParamNames net0) = woInitNames net0 ∧
    ((paramUpdatesForInit net0 opt0).map Prod.fst).filter
      (fun n => n ∈ allParamNames net0) = forInitNames net0 ∧
    ("LSTM_0_init" ∈ woInitNames net0 ∨ "LSTM_0_init" ∈ forInitNames net0) :=
  ⟨(C10_init_partition net0 opt0 (by decide) (by decide)).2.2.2.2.2.1,
   (C10_init_partition net0 opt0 (by decide) (by decide)).2.2.2.2.2.2.1 rfl,
   (C10_init_partition net0 opt0 (by decide) (by decide)).1 "LSTM_0_init" (by decide)⟩

end Sophia
